import Mathlib

/-!
Verification of the PBTS timing functions and of the pubsub query matcher of
this repository.

Times and durations are modelled as integers (nanoseconds); Go's
`time.Duration`/`time.Time` arithmetic is integer arithmetic on nanoseconds,
so that part of the embedding is exact.  The query matcher is embedded from
`src/libs/pubsub/query/compile.go`.  Finite `float64` values are modelled as
the exact rationals they denote: `strconv.ParseFloat` is correctly rounded,
so it is embedded as round-to-nearest-ties-to-even of the decimal matched by
the regexp `^\d+(\.\d+)?` onto the binary64 grid, with `none` when the value
rounds to infinity (Go's `ErrRange`), and comparisons of finite `float64`
values coincide with comparisons of the rationals they denote.
-/

/-- One millisecond in nanoseconds, as Go's `time.Millisecond`. -/
def millisecond : Int := 1000000

/-- The two PBTS protocol parameters (`types.TimestampParams`). -/
structure TimestampParams where
  Precision : Int
  MsgDelay : Int

/-- Modelled from the spec: the implementation of `proposerWaitTime` lives in
`internal/consensus` and is not under `src/` (only its test file
`pbts_test.go` is).  Per spec section 4.1 it returns
`max(0, previousBlockTime - clock.Now())`. -/
def proposerWaitTime (now previousBlockTime : Int) : Int :=
  max 0 (previousBlockTime - now)

/-- Modelled from the spec: the implementation of `proposalStepWaitingTime`
lives in `internal/consensus` and is not under `src/` (only its test file
`pbts_test.go` is).  Per spec section 4.1 it computes
`deadline = previousBlockTime + params.Precision + params.MsgDelay` and
returns `max(0, deadline - clock.Now())`. -/
def proposalStepWaitingTime (now previousBlockTime : Int) (params : TimestampParams) : Int :=
  max 0 (previousBlockTime + params.Precision + params.MsgDelay - now)

/-- Configuration of one propose step of a non-proposer validator:
the local clock value at step entry, the previous block's timestamp, the
PBTS parameters and the configured fixed propose timeout. -/
structure ProposeConfig where
  entryTime : Int
  previousBlockTime : Int
  params : TimestampParams
  timeoutPropose : Int

/-- Modelled from the spec (section 4.2): the effective propose-step timeout
is the larger of the fixed configured propose timeout and the PBTS-derived
waiting time computed at step entry. -/
def effectiveProposeTimeout (cfg : ProposeConfig) : Int :=
  max cfg.timeoutPropose
    (proposalStepWaitingTime cfg.entryTime cfg.previousBlockTime cfg.params)

/-- The absolute local time at which the effective propose-step timeout of
`cfg` elapses. -/
def proposeDeadline (cfg : ProposeConfig) : Int :=
  cfg.entryTime + effectiveProposeTimeout cfg

/-- Modelled from the spec (section 4.1): a received block is timely iff its
timestamp is at least the previous block's timestamp and within plus-or-minus
`Precision` of the receiver's local clock when the full block is available. -/
def isTimely (blockTime localTime prevBlockTime precision : Int) : Bool :=
  decide (prevBlockTime ≤ blockTime) &&
  decide (blockTime - localTime ≤ precision) &&
  decide (localTime - blockTime ≤ precision)

/-- A delivered proposal+block: the local time of delivery, the block header
timestamp, and an abstract identifier standing for the block's `BlockID`. -/
structure Delivery where
  time : Int
  blockTime : Int
  blockID : Nat

/-- Modelled from the spec (section 4.2): the propose-step race of a
non-proposer validator.  A delivered block wins the race iff it is delivered
before the effective deadline and is timely; otherwise the deadline fires and
the validator prevotes nil.  `procDelay` is the strictly positive processing
delay between the winning event and the prevote being issued; the result is
the local time the prevote is issued at and the voted `BlockID` (`none` is
the nil vote). -/
def proposeStepRace (cfg : ProposeConfig) (delivery : Option Delivery) (procDelay : Int) :
    Int × Option Nat :=
  match delivery with
  | none => (proposeDeadline cfg + procDelay, none)
  | some d =>
    if d.time < proposeDeadline cfg ∧
        isTimely d.blockTime d.time cfg.previousBlockTime cfg.params.Precision = true then
      (d.time + procDelay, some d.blockID)
    else
      (proposeDeadline cfg + procDelay, none)

/-- The PBTS parameters of the two test scenarios of `pbts_test.go`:
`Precision = 100ms`, `MsgDelay = 500ms`. -/
def scenarioParams : TimestampParams := ⟨100 * millisecond, 500 * millisecond⟩

/-- The propose-step configuration of the two test scenarios: genesis (and
propose-step entry) at `T0`, previous block time `T0`,
`TimeoutPropose = 50ms`. -/
def scenarioCfg (T0 : Int) : ProposeConfig := ⟨T0, T0, scenarioParams, 50 * millisecond⟩

/- ------------------------------------------------------------------
The pubsub query matcher, embedded from `src/libs/pubsub/query/compile.go`.
------------------------------------------------------------------ -/

/-- `abci/types.EventAttribute`: one key/value attribute of an event. -/
structure EventAttribute where
  key : String
  value : String

/-- `abci/types.Event`: an event with a type and a list of attributes. -/
structure Event where
  type : String
  attributes : List EventAttribute

/-- A compiled match condition (`condition` in `compile.go`): an event type,
an attribute name, and a match function on attribute values.  The Go field
`match` is a Lean keyword and is called `matchFn` here. -/
structure condition where
  etype : String
  attr : String
  matchFn : String → Bool

/-- `condition.findAttr`: reports whether the event type matches the
condition, and the slice of the attribute values with the condition's
attribute name. -/
def condition.findAttr (c : condition) (event : Event) : List String × Bool :=
  if event.type ≠ c.etype then ([], false)
  else if c.attr = "" then ([], true)
  else ((event.attributes.filter fun attr => attr.key == c.attr).map EventAttribute.value, true)

/-- `condition.matchesEvent`: reports whether `c` matches the given event.
As in the Go source, a condition on an empty attribute name is allowed to
match on an empty string, which allows existence checks for types. -/
def condition.matchesEvent (c : condition) (event : Event) : Bool :=
  match c.findAttr event with
  | (_, false) => false
  | (vs, true) =>
    if vs = [] then
      if c.attr = "" then c.matchFn "" else false
    else
      vs.any c.matchFn

/-- `condition.matchesAny`: reports whether `c` matches at least one of the
given events. -/
def condition.matchesAny (c : condition) (events : List Event) : Bool :=
  events.any fun event => c.matchesEvent event

/-- The compiled form of a query (`Compiled` in `compile.go`).  The `ast`
field is omitted: it is not consulted by the matching functions. -/
structure Compiled where
  conds : List condition

/-- `Compiled.matchesEvents`: all the conditions match the given events, and
the event list is non-empty. -/
def Compiled.matchesEvents (c : Compiled) (events : List Event) : Bool :=
  (c.conds.all fun cond => cond.matchesAny events) && !events.isEmpty

/-- `Compiled.Matches`: the pubsub interface entry point.  The Go function
returns `(bool, error)` and never reports an error; the error component is
modelled as `Option String`, always `none`. -/
def Compiled.Matches (c : Compiled) (events : List Event) : Bool × Option String :=
  (c.matchesEvents events, none)

/-- `splitTag` helper: scan for the first dot, returning the characters
before it and after it. -/
def splitTagAux : List Char → Option (List Char × List Char)
  | [] => none
  | ch :: cs =>
    if ch = '.' then some ([], cs)
    else (splitTagAux cs).map fun p => (ch :: p.1, p.2)

/-- `splitTag`: split a tag at its first dot into an event type and an
attribute name; a tag without a dot has an empty attribute name. -/
def splitTag (tag : String) : String × String :=
  match splitTagAux tag.data with
  | some (a, b) => (String.mk a, String.mk b)
  | none => (tag, "")

/-- Helper for the regexp `^\d+(\.\d+)?`: split off the leading run of
decimal digits. -/
def takeDigits : List Char → List Char × List Char
  | [] => ([], [])
  | ch :: cs =>
    if ch.isDigit then
      let (d, r) := takeDigits cs
      (ch :: d, r)
    else
      ([], ch :: cs)

/-- The match of the anchored regexp `^\d+(\.\d+)?` (`extractNum` in
`compile.go`), as the pair (integer digits, fraction digits); both empty when
the string has no leading digit. -/
def extractNum (s : String) : List Char × List Char :=
  let (intPart, rest) := takeDigits s.data
  if intPart = [] then ([], [])
  else
    match rest with
    | '.' :: r2 =>
      let (fracPart, _) := takeDigits r2
      if fracPart = [] then (intPart, []) else (intPart, fracPart)
    | _ => (intPart, [])

/-- Numeric value of a decimal digit. -/
def digitVal (ch : Char) : Nat := ch.toNat - 48

/-- Value of a run of decimal digits, most significant first. -/
def natOfDigits (l : List Char) : Nat :=
  l.foldl (fun acc ch => 10 * acc + digitVal ch) 0

/-- Fuel-driven floor of the base-2 logarithm, `log2Fuel n n = Nat.log2 n`,
written with structural recursion so that it reduces in the kernel. -/
def log2Fuel : Nat → Nat → Nat
  | 0, _ => 0
  | f + 1, n => if 2 ≤ n then log2Fuel f (n / 2) + 1 else 0

/-- Floor of the base-2 logarithm of a positive natural number. -/
def natLog2 (n : Nat) : Nat := log2Fuel n n

/-- Decides `2 ^ e * d ≤ n` for an integer exponent `e`. -/
def pow2MulLe (e : Int) (d n : Nat) : Bool :=
  if 0 ≤ e then decide (2 ^ e.toNat * d ≤ n) else decide (d ≤ 2 ^ (-e).toNat * n)

/-- Floor of the base-2 logarithm of the positive rational `n / d`:
`n / d` lies in the open interval `(2 ^ (e0 - 1), 2 ^ (e0 + 1))` for
`e0 = natLog2 n - natLog2 d`, so one comparison settles the floor. -/
def floorLog2Frac (n d : Nat) : Int :=
  let e0 : Int := (natLog2 n : Int) - (natLog2 d : Int)
  if pow2MulLe e0 d n then e0 else e0 - 1

/-- The rational `n * 2 ^ e` for an integer exponent `e`: the exact value of
a nonnegative binary64 number with significand `n` and exponent `e`. -/
def dyadic (n : Nat) (e : Int) : ℚ :=
  if 0 ≤ e then ((n * 2 ^ e.toNat : Nat) : ℚ)
  else (n : ℚ) / ((2 ^ (-e).toNat : Nat) : ℚ)

/-- Correct rounding of the nonnegative decimal `n / 10 ^ k` to IEEE-754
binary64 (round to nearest, ties to even), returned as the exact rational the
rounded `float64` denotes, or `none` when the value rounds to infinity —
`strconv.ParseFloat`'s `ErrRange` overflow.  A normal value in the binade
`[2 ^ e, 2 ^ (e + 1))` is rounded on the grid of step `2 ^ (e - 52)`; values
below `2 ^ (-1022)` use the subnormal grid of step `2 ^ (-1074)` and may
round to zero without error, as in Go; a result `m * 2 ^ ulpExp` of `2 ^ 1024`
or more — tested as `natLog2 m + ulpExp ≥ 1024`, exact since the floor
logarithm shifts by exactly `ulpExp` — is the overflow to infinity.  All
arithmetic is integer arithmetic: the scaled value
`(n / 10 ^ k) / 2 ^ ulpExp` is the exact fraction `p / q` below. -/
def roundFloatDec (n k : Nat) : Option ℚ :=
  if n = 0 then some 0
  else
    let d := 10 ^ k
    let e := floorLog2Frac n d
    let ulpExp : Int := if e < -1022 then -1074 else e - 52
    let p := if ulpExp ≤ 0 then n * 2 ^ (-ulpExp).toNat else n
    let q := if ulpExp ≤ 0 then d else d * 2 ^ ulpExp.toNat
    let fl := p / q
    let rem := p % q
    let m := if 2 * rem < q then fl
             else if q < 2 * rem then fl + 1
             else if fl % 2 = 0 then fl else fl + 1
    let overflow : Bool := decide ((1024 : Int) ≤ (natLog2 m : Int) + ulpExp)
    if overflow then none else some (dyadic m ulpExp)

/-- `parseNumber`: `strconv.ParseFloat (extractNum.FindString s) 64`.  The
parse fails when `s` has no leading digit (the regexp match is empty and
`ParseFloat` errors) and when the decimal prefix overflows binary64
(`ErrRange`); otherwise it returns the correctly rounded `float64` of the
leading decimal prefix `intPart.fracPart = N / 10 ^ k`, as the exact rational
that `float64` denotes. -/
def parseNumber (s : String) : Option ℚ :=
  let intPart := (extractNum s).1
  let fracPart := (extractNum s).2
  if intPart = [] then none
  else roundFloatDec (natOfDigits (intPart ++ fracPart)) fracPart.length

/-- `strings.Contains s v`: `v` occurs as a substring of `s`. -/
def strContains (s v : String) : Bool := decide (List.IsInfix v.data s.data)

/-- The `TContains`/`TString` entry of `opTypeMap`. -/
def matchContainsString (v : String) : String → Bool := fun s => strContains s v

/-- The `TEq`/`TString` entry of `opTypeMap`. -/
def matchEqString (v : String) : String → Bool := fun s => s == v

/-- The `TEq`/`TNumber` entry of `opTypeMap`: parse, then compare equal;
a failed parse (no leading digit, or `ErrRange` overflow) does not match.
The argument `v` is the rational denoted by the query's finite `float64`
constant, produced by the external `syntax.Arg.Number`; comparing finite
`float64` values is identical to comparing the rationals they denote. -/
def matchEqNumber (v : ℚ) : String → Bool := fun s =>
  match parseNumber s with
  | none => false
  | some w => w == v

/-- The `TLt`/`TNumber` entry of `opTypeMap`. -/
def matchLtNumber (v : ℚ) : String → Bool := fun s =>
  match parseNumber s with
  | none => false
  | some w => decide (w < v)

/-- The `TLeq`/`TNumber` entry of `opTypeMap`. -/
def matchLeqNumber (v : ℚ) : String → Bool := fun s =>
  match parseNumber s with
  | none => false
  | some w => decide (w ≤ v)

/-- The `TGt`/`TNumber` entry of `opTypeMap`. -/
def matchGtNumber (v : ℚ) : String → Bool := fun s =>
  match parseNumber s with
  | none => false
  | some w => decide (v < w)

/-- The `TGeq`/`TNumber` entry of `opTypeMap`. -/
def matchGeqNumber (v : ℚ) : String → Bool := fun s =>
  match parseNumber s with
  | none => false
  | some w => decide (v ≤ w)

/-- The `TEq` date/time entries of `opTypeMap`.  `syntax.ParseDate` and
`syntax.ParseTime` are external to `compile.go` (the `syntax` package is not
under `src/`), so the parse function is a parameter and `time.Time` is an
integer instant; `ts.Equal v` is integer equality. -/
def matchEqTimeWith (parse : String → Option Int) (v : Int) : String → Bool := fun s =>
  match parse s with
  | none => false
  | some ts => ts == v

/-- The `TLt` date/time entries of `opTypeMap`: `ts.Before v`. -/
def matchLtTimeWith (parse : String → Option Int) (v : Int) : String → Bool := fun s =>
  match parse s with
  | none => false
  | some ts => decide (ts < v)

/-- The `TLeq` date/time entries of `opTypeMap`: `!ts.After v`. -/
def matchLeqTimeWith (parse : String → Option Int) (v : Int) : String → Bool := fun s =>
  match parse s with
  | none => false
  | some ts => decide (ts ≤ v)

/-- The `TGt` date/time entries of `opTypeMap`: `ts.After v`. -/
def matchGtTimeWith (parse : String → Option Int) (v : Int) : String → Bool := fun s =>
  match parse s with
  | none => false
  | some ts => decide (v < ts)

/-- The `TGeq` date/time entries of `opTypeMap`: `!ts.Before v`. -/
def matchGeqTimeWith (parse : String → Option Int) (v : Int) : String → Bool := fun s =>
  match parse s with
  | none => false
  | some ts => decide (v ≤ ts)

/-- The operators of the query language (`syntax.Token`, operator subset). -/
inductive QOp
  | TExists
  | TContains
  | TEq
  | TLt
  | TLeq
  | TGt
  | TGeq
deriving DecidableEq

/-- A condition argument with its type tag (`syntax.Arg`): a string, a
number, a date or a time. -/
inductive QArg
  | str (s : String)
  | num (q : ℚ)
  | date (t : Int)
  | time (t : Int)

/-- A parsed condition of the query language (`syntax.Condition`). -/
structure SynCond where
  Tag : String
  Op : QOp
  Arg : Option QArg

/-- `compileCondition`: split the tag into event type and attribute name;
an existence check matches any value; every other operator requires an
argument, and the match function is looked up in `opTypeMap` by operator and
argument type (`none` for the invalid combinations).  `pd` and `pt` are the
external `syntax.ParseDate` and `syntax.ParseTime`. -/
def compileCondition (pd pt : String → Option Int) (cond : SynCond) : Option condition :=
  let (etype, attr) := splitTag cond.Tag
  if cond.Op = QOp.TExists then
    some { etype := etype, attr := attr, matchFn := fun _ => true }
  else
    match cond.Arg with
    | none => none
    | some arg =>
      let mcons : Option (String → Bool) :=
        match cond.Op, arg with
        | QOp.TContains, QArg.str v => some (matchContainsString v)
        | QOp.TEq, QArg.str v => some (matchEqString v)
        | QOp.TEq, QArg.num v => some (matchEqNumber v)
        | QOp.TEq, QArg.date v => some (matchEqTimeWith pd v)
        | QOp.TEq, QArg.time v => some (matchEqTimeWith pt v)
        | QOp.TLt, QArg.num v => some (matchLtNumber v)
        | QOp.TLt, QArg.date v => some (matchLtTimeWith pd v)
        | QOp.TLt, QArg.time v => some (matchLtTimeWith pt v)
        | QOp.TLeq, QArg.num v => some (matchLeqNumber v)
        | QOp.TLeq, QArg.date v => some (matchLeqTimeWith pd v)
        | QOp.TLeq, QArg.time v => some (matchLeqTimeWith pt v)
        | QOp.TGt, QArg.num v => some (matchGtNumber v)
        | QOp.TGt, QArg.date v => some (matchGtTimeWith pd v)
        | QOp.TGt, QArg.time v => some (matchGtTimeWith pt v)
        | QOp.TGeq, QArg.num v => some (matchGeqNumber v)
        | QOp.TGeq, QArg.date v => some (matchGeqTimeWith pd v)
        | QOp.TGeq, QArg.time v => some (matchGeqTimeWith pt v)
        | _, _ => none
      match mcons with
      | none => none
      | some m => some { etype := etype, attr := attr, matchFn := m }

/-- The condition that `compileCondition` produces for the query
`tx = 'foo'`: the tag `tx` has no dot, so the attribute name is empty, and
the match function is string equality with `foo`. -/
def c8cond : condition := { etype := "tx", attr := "", matchFn := matchEqString "foo" }

/- ------------------------------------------------------------------
Helper lemmas.
------------------------------------------------------------------ -/

/-- The race result when a timely delivery arrives before the deadline. -/
theorem proposeStepRace_delivery_wins (cfg : ProposeConfig) (d : Delivery) (procDelay : Int)
    (hlt : d.time < proposeDeadline cfg)
    (ht : isTimely d.blockTime d.time cfg.previousBlockTime cfg.params.Precision = true) :
    proposeStepRace cfg (some d) procDelay = (d.time + procDelay, some d.blockID) := by
  simp [proposeStepRace, hlt, ht]

/-- The race result when the delivery is late or untimely. -/
theorem proposeStepRace_deadline_wins (cfg : ProposeConfig) (d : Delivery) (procDelay : Int)
    (h : ¬(d.time < proposeDeadline cfg ∧
        isTimely d.blockTime d.time cfg.previousBlockTime cfg.params.Precision = true)) :
    proposeStepRace cfg (some d) procDelay = (proposeDeadline cfg + procDelay, none) := by
  simp only [proposeStepRace, if_neg h]

/-- In the scenario configuration the effective deadline is `T0 + 600ms`:
the PBTS waiting time `600ms` dominates the `50ms` configured timeout. -/
theorem scenario_deadline (T0 : Int) :
    proposeDeadline (scenarioCfg T0) = T0 + 600 * millisecond := by
  simp [proposeDeadline, effectiveProposeTimeout, proposalStepWaitingTime, scenarioCfg,
    scenarioParams, millisecond]
  omega

/- ------------------------------------------------------------------
Claims C1 to C6 (PBTS timing, modelled from the spec).
------------------------------------------------------------------ -/

/-- C1: for every local time, previous block time and parameter pair,
`proposalStepWaitingTime` equals
`max(0, previousBlockTime + Precision + MsgDelay - now)`, is never negative,
and matches the table of `TestProposalTimeout`: with precision 20ms and delay
500ms, local +525ms and previous +6ms give 1ms; local +525ms and previous
+5ms give 0; local +725ms and previous +5ms give 0. -/
theorem C1_proposalStepWaitingTime_spec (now prev precision delay g : Int) :
    proposalStepWaitingTime now prev ⟨precision, delay⟩ =
      max 0 (prev + precision + delay - now) ∧
    0 ≤ proposalStepWaitingTime now prev ⟨precision, delay⟩ ∧
    proposalStepWaitingTime (g + 525 * millisecond) (g + 6 * millisecond)
      ⟨20 * millisecond, 500 * millisecond⟩ = 1 * millisecond ∧
    proposalStepWaitingTime (g + 525 * millisecond) (g + 5 * millisecond)
      ⟨20 * millisecond, 500 * millisecond⟩ = 0 ∧
    proposalStepWaitingTime (g + 725 * millisecond) (g + 5 * millisecond)
      ⟨20 * millisecond, 500 * millisecond⟩ = 0 := by
  refine ⟨rfl, ?_, ?_, ?_, ?_⟩ <;>
    simp [proposalStepWaitingTime, millisecond] <;> omega

/-- C2: for every local time and previous block time, `proposerWaitTime`
equals `max(0, previousBlockTime - now)`; it is `previousBlockTime - now`
whenever the previous block time is in the future and `0` otherwise
(including equality), matching the table of `TestProposerWaitTime`. -/
theorem C2_proposerWaitTime_spec (now prev g : Int) :
    proposerWaitTime now prev = max 0 (prev - now) ∧
    (now < prev → proposerWaitTime now prev = prev - now) ∧
    (prev ≤ now → proposerWaitTime now prev = 0) ∧
    proposerWaitTime (g + 1) (g + 5) = 4 ∧
    proposerWaitTime (g + 5) (g + 1) = 0 ∧
    proposerWaitTime (g + 5) (g + 5) = 0 := by
  refine ⟨rfl, ?_, ?_, ?_, ?_, ?_⟩ <;>
    simp only [proposerWaitTime] <;> omega

/-- C2 witness: at local time +1 and previous block time +5
(`TestProposerWaitTime`, first row) the wait is the difference `5 - 1`. -/
theorem C2_witness : proposerWaitTime 1 5 = 5 - 1 :=
  (C2_proposerWaitTime_spec 1 5 0).2.1 (by norm_num)

/-- C3: Scenario A.  With Precision 100ms, MsgDelay 500ms, TimeoutPropose
50ms, genesis and previous block time `T0`, a height-2 block with timestamp
`T0 + 350ms` delivered at `T0 + 450ms` is timely and wins the race: the
prevote is for the delivered block (non-nil), issued strictly after
`T0 + 450ms` and strictly before `T0 + 600ms`, for any processing delay
below 150ms. -/
theorem C3_scenarioA (T0 procDelay : Int) (bid : Nat)
    (h1 : 0 < procDelay) (h2 : procDelay < 150 * millisecond) :
    (proposeStepRace (scenarioCfg T0)
        (some ⟨T0 + 450 * millisecond, T0 + 350 * millisecond, bid⟩) procDelay).2 =
      some bid ∧
    T0 + 450 * millisecond <
      (proposeStepRace (scenarioCfg T0)
        (some ⟨T0 + 450 * millisecond, T0 + 350 * millisecond, bid⟩) procDelay).1 ∧
    (proposeStepRace (scenarioCfg T0)
        (some ⟨T0 + 450 * millisecond, T0 + 350 * millisecond, bid⟩) procDelay).1 <
      T0 + 600 * millisecond := by
  have hrace := proposeStepRace_delivery_wins (scenarioCfg T0)
    ⟨T0 + 450 * millisecond, T0 + 350 * millisecond, bid⟩ procDelay
    (by rw [scenario_deadline]; simp [millisecond])
    (by simp [isTimely, scenarioCfg, scenarioParams, millisecond])
  rw [hrace]
  simp only [millisecond] at h2 ⊢
  refine ⟨trivial, by omega, by omega⟩

/-- C3 witness: Scenario A at `T0 = 0` with a 1ms processing delay: the
prevote is for the delivered block, strictly between 450ms and 600ms. -/
theorem C3_witness :
    (proposeStepRace (scenarioCfg 0)
        (some ⟨450 * millisecond, 350 * millisecond, 7⟩) millisecond).2 = some 7 :=
  (C3_scenarioA 0 millisecond 7 (by decide) (by decide)).1

/-- C4: Scenario B.  Same parameters, but the height-2 block delivered at
`T0 + 610ms`, after the deadline `T0 + 600ms` (and the block is no longer
within Precision of the local clock): the deadline wins, the prevote is nil
and is issued strictly after `T0 + 600ms`. -/
theorem C4_scenarioB (T0 procDelay : Int) (bid : Nat) (h1 : 0 < procDelay) :
    proposeStepRace (scenarioCfg T0)
        (some ⟨T0 + 610 * millisecond, T0 + 350 * millisecond, bid⟩) procDelay =
      (T0 + 600 * millisecond + procDelay, none) ∧
    T0 + 600 * millisecond <
      (proposeStepRace (scenarioCfg T0)
        (some ⟨T0 + 610 * millisecond, T0 + 350 * millisecond, bid⟩) procDelay).1 ∧
    (proposeStepRace (scenarioCfg T0)
        (some ⟨T0 + 610 * millisecond, T0 + 350 * millisecond, bid⟩) procDelay).2 =
      none := by
  have hrace := proposeStepRace_deadline_wins (scenarioCfg T0)
    ⟨T0 + 610 * millisecond, T0 + 350 * millisecond, bid⟩ procDelay
    (by
      rw [scenario_deadline]
      rintro ⟨hlt, -⟩
      simp [millisecond] at hlt)
  rw [hrace, scenario_deadline]
  refine ⟨rfl, ?_, rfl⟩
  show T0 + 600 * millisecond < T0 + 600 * millisecond + procDelay
  omega

/-- C4 witness: Scenario B at `T0 = 0` with a 1ms processing delay: the
prevote is nil. -/
theorem C4_witness :
    (proposeStepRace (scenarioCfg 0)
        (some ⟨610 * millisecond, 350 * millisecond, 7⟩) millisecond).2 = none :=
  (C4_scenarioB 0 millisecond 7 (by decide)).2.2

/-- C5: the effective propose-step timeout is the larger of the configured
`TimeoutPropose` and the PBTS waiting time, so the PBTS waiting time always
bounds it from below, and whenever the race ends in a nil prevote the prevote
is issued strictly after the PBTS deadline
`entryTime + proposalStepWaitingTime` has elapsed — a shorter configured
timeout never causes a premature nil prevote. -/
theorem C5_effective_timeout (cfg : ProposeConfig) (delivery : Option Delivery)
    (procDelay : Int) (hp : 0 < procDelay) :
    effectiveProposeTimeout cfg =
      max cfg.timeoutPropose
        (proposalStepWaitingTime cfg.entryTime cfg.previousBlockTime cfg.params) ∧
    proposalStepWaitingTime cfg.entryTime cfg.previousBlockTime cfg.params ≤
      effectiveProposeTimeout cfg ∧
    ((proposeStepRace cfg delivery procDelay).2 = none →
      cfg.entryTime + proposalStepWaitingTime cfg.entryTime cfg.previousBlockTime cfg.params <
        (proposeStepRace cfg delivery procDelay).1) := by
  refine ⟨rfl, le_max_right _ _, fun hnil => ?_⟩
  have hfst : (proposeStepRace cfg delivery procDelay).1 = proposeDeadline cfg + procDelay := by
    match delivery with
    | none => rfl
    | some d =>
      by_cases hc : d.time < proposeDeadline cfg ∧
          isTimely d.blockTime d.time cfg.previousBlockTime cfg.params.Precision = true
      · rw [proposeStepRace_delivery_wins cfg d procDelay hc.1 hc.2] at hnil
        simp at hnil
      · rw [proposeStepRace_deadline_wins cfg d procDelay hc]
  rw [hfst, proposeDeadline, effectiveProposeTimeout]
  have := le_max_right cfg.timeoutPropose
    (proposalStepWaitingTime cfg.entryTime cfg.previousBlockTime cfg.params)
  omega

/-- C5 witness: in Scenario B at `T0 = 0` the race ends in a nil prevote and
the prevote time exceeds the PBTS deadline `0 + proposalStepWaitingTime`. -/
theorem C5_witness :
    0 + proposalStepWaitingTime 0 0 scenarioParams <
      (proposeStepRace (scenarioCfg 0)
        (some ⟨610 * millisecond, 350 * millisecond, 7⟩) millisecond).1 :=
  (C5_effective_timeout (scenarioCfg 0)
      (some ⟨610 * millisecond, 350 * millisecond, 7⟩) millisecond (by decide)).2.2
    (by decide)

/-- C6: the timeliness predicate holds exactly when the block timestamp is at
least the previous block's timestamp and within plus-or-minus Precision of
the receiver's local clock, and a delivery whose block fails this check
produces exactly the same propose-step outcome as no delivery at all. -/
theorem C6_timeliness (b l p prec : Int) (cfg : ProposeConfig) (d : Delivery)
    (procDelay : Int)
    (huntimely : isTimely d.blockTime d.time cfg.previousBlockTime
        cfg.params.Precision = false) :
    (isTimely b l p prec = true ↔ (p ≤ b ∧ |b - l| ≤ prec)) ∧
    proposeStepRace cfg (some d) procDelay = proposeStepRace cfg none procDelay := by
  constructor
  · simp [isTimely, abs_sub_le_iff, and_assoc]
  · have : ¬(d.time < proposeDeadline cfg ∧
        isTimely d.blockTime d.time cfg.previousBlockTime cfg.params.Precision = true) := by
      rintro ⟨-, ht⟩
      rw [huntimely] at ht
      exact Bool.false_ne_true ht
    rw [proposeStepRace_deadline_wins cfg d procDelay this]
    rfl

/-- C6 witness: the Scenario B delivery (block timestamp 350ms, delivered at
610ms, previous block time 0, Precision 100ms) is untimely, and the race
treats it exactly as no delivery. -/
theorem C6_witness :
    proposeStepRace (scenarioCfg 0) (some ⟨610 * millisecond, 350 * millisecond, 7⟩) 1 =
      proposeStepRace (scenarioCfg 0) none 1 :=
  (C6_timeliness 0 0 0 0 (scenarioCfg 0) ⟨610 * millisecond, 350 * millisecond, 7⟩ 1
    (by decide)).2

/- ------------------------------------------------------------------
Claims C7 to C10 (query matcher, embedded from compile.go).
------------------------------------------------------------------ -/

/-- C7: a compiled query matches a list of events iff the list is non-empty
and every condition of the query is satisfied by at least one event of the
list; in particular every query, even one with zero conditions, fails to
match the empty event list. -/
theorem C7_matchesEvents_iff (c : Compiled) (events : List Event) :
    (c.matchesEvents events = true ↔
      events ≠ [] ∧ ∀ cond ∈ c.conds, ∃ e ∈ events, cond.matchesEvent e = true) ∧
    c.matchesEvents [] = false := by
  constructor
  · simp [Compiled.matchesEvents, condition.matchesAny, List.all_eq_true, List.any_eq_true,
      and_comm]
  · simp [Compiled.matchesEvents]

/-- C7 witness: the query with zero conditions matches a one-event list. -/
theorem C7_witness : Compiled.matchesEvents ⟨[]⟩ [⟨"tm", []⟩] = true :=
  (C7_matchesEvents_iff ⟨[]⟩ [⟨"tm", []⟩]).1.mpr ⟨by simp, by simp⟩

/-- C8 counterexample: the query tx = 'foo' compiles to a condition whose
attribute name is empty, and on an event whose type "tx" equals the
condition's event type the condition still fails to match: for the equality
operator, presence of the event type alone does not decide the match. -/
theorem C8_counterexample :
    compileCondition (fun _ => none) (fun _ => none)
      ⟨"tx", QOp.TEq, some (QArg.str "foo")⟩ = some c8cond ∧
    c8cond.attr = "" ∧
    (⟨"tx", []⟩ : Event).type = c8cond.etype ∧
    condition.matchesEvent c8cond ⟨"tx", []⟩ = false := by
  refine ⟨rfl, rfl, rfl, by decide⟩

/-- C8 amended: a compiled condition whose attribute name is empty matches an
event exactly when the event's type equals the condition's event type and the
condition's match function accepts the empty string; whenever the match
function accepts the empty string (notably for the existence operator, whose
match function accepts everything) this reduces to event-type presence alone,
regardless of the event's attributes. -/
theorem C8_empty_attr_match (c : condition) (e : Event) (h : c.attr = "") :
    c.matchesEvent e = (e.type == c.etype && c.matchFn "") ∧
    (c.matchFn "" = true → (c.matchesEvent e = true ↔ e.type = c.etype)) := by
  have key : c.matchesEvent e = (e.type == c.etype && c.matchFn "") := by
    by_cases ht : e.type = c.etype
    · have hf : c.findAttr e = ([], true) := by
        simp [condition.findAttr, ht, h]
      simp [condition.matchesEvent, hf, h, ht]
    · have hf : c.findAttr e = ([], false) := by
        simp [condition.findAttr, ht]
      simp [condition.matchesEvent, hf, ht]
  refine ⟨key, fun hm => ?_⟩
  rw [key, hm]
  simp

/-- C8 amended witness: an existence condition on type tx matches an event of
type tx whatever its attributes. -/
theorem C8_empty_attr_witness :
    condition.matchesEvent ⟨"tx", "", fun _ => true⟩ ⟨"tx", [⟨"k", "v"⟩]⟩ = true :=
  ((C8_empty_attr_match ⟨"tx", "", fun _ => true⟩ ⟨"tx", [⟨"k", "v"⟩]⟩ rfl).2 rfl).mpr rfl

set_option maxRecDepth 8000 in
/-- C9: Matches never reports an error; every numeric match function compares
the query constant against the float64 parsed from the leading decimal prefix
of the attribute value (modelled as correctly rounded binary64, returned as
the exact rational it denotes), and a failed parse — a string with no leading
digit, a decimal prefix overflowing binary64 (`ErrRange`), or an unparsable
date or time — makes the condition fail to match that value rather than
erroring.  The parse depends only on the leading decimal prefix, and the
exactly representable 12.25 parses to itself. -/
theorem C9_matches_never_errors :
    (∀ (c : Compiled) (events : List Event), (c.Matches events).2 = none) ∧
    (∀ (v : ℚ) (s : String), parseNumber s = none →
      matchEqNumber v s = false ∧ matchLtNumber v s = false ∧ matchLeqNumber v s = false ∧
      matchGtNumber v s = false ∧ matchGeqNumber v s = false) ∧
    (∀ (parse : String → Option Int) (v : Int) (s : String), parse s = none →
      matchEqTimeWith parse v s = false ∧ matchLtTimeWith parse v s = false ∧
      matchLeqTimeWith parse v s = false ∧ matchGtTimeWith parse v s = false ∧
      matchGeqTimeWith parse v s = false) ∧
    (∀ (v w : ℚ) (s : String), parseNumber s = some w →
      matchEqNumber v s = (w == v) ∧ matchLtNumber v s = decide (w < v) ∧
      matchLeqNumber v s = decide (w ≤ v) ∧ matchGtNumber v s = decide (v < w) ∧
      matchGeqNumber v s = decide (v ≤ w)) ∧
    (∀ s : String, (extractNum s).1 = [] → parseNumber s = none) ∧
    parseNumber "12.25abc" = parseNumber "12.25" ∧
    parseNumber "12.25abc" = some (49 / 4 : ℚ) ∧
    parseNumber "abc" = none := by
  refine ⟨fun c events => rfl, ?_, ?_, ?_, ?_, by rfl, ?_, by rfl⟩
  · intro v s h
    simp [matchEqNumber, matchLtNumber, matchLeqNumber, matchGtNumber, matchGeqNumber, h]
  · intro parse v s h
    simp [matchEqTimeWith, matchLtTimeWith, matchLeqTimeWith, matchGtTimeWith,
      matchGeqTimeWith, h]
  · intro v w s h
    simp [matchEqNumber, matchLtNumber, matchLeqNumber, matchGtNumber, matchGeqNumber, h]
  · intro s h
    simp [parseNumber, h]
  · have key : parseNumber "12.25abc" = some (dyadic (1225 * 2 ^ 49 / 100) (-49)) := rfl
    rw [key, dyadic]
    norm_num [show Int.toNat 49 = 49 from rfl]

/-- C9 witness: the attribute value abc has no numeric prefix; its parse
fails and the equality-with-zero condition does not match it. -/
theorem C9_witness : parseNumber "abc" = none ∧ matchEqNumber 0 "abc" = false := by
  refine ⟨C9_matches_never_errors.2.2.2.2.2.2.2, ?_⟩
  exact (C9_matches_never_errors.2.1 0 "abc" C9_matches_never_errors.2.2.2.2.2.2.2).1

/-- C10: for a condition with a non-empty attribute name on an event of the
matching type, findAttr collects exactly the values of the attributes whose
key equals the condition's attribute name, and the condition matches the
event iff at least one collected value satisfies the match function; an
absent attribute never matches, whatever the match function (including the
always-true existence matcher). -/
theorem C10_multivalue (c : condition) (e : Event) (hattr : c.attr ≠ "")
    (htype : e.type = c.etype) :
    (c.findAttr e).1 =
      (e.attributes.filter fun a => a.key == c.attr).map EventAttribute.value ∧
    (c.matchesEvent e = true ↔
      ∃ a ∈ e.attributes, a.key = c.attr ∧ c.matchFn a.value = true) := by
  have hf : c.findAttr e =
      ((e.attributes.filter fun a => a.key == c.attr).map EventAttribute.value, true) := by
    simp [condition.findAttr, htype, hattr]
  have hme : c.matchesEvent e =
      ((e.attributes.filter fun a => a.key == c.attr).map EventAttribute.value).any
        c.matchFn := by
    simp only [condition.matchesEvent, hf, hattr]
    split
    · rename_i hnil
      rw [hnil]
      simp [hattr]
    · simp [hattr]
  refine ⟨by rw [hf], ?_⟩
  rw [hme]
  simp only [List.any_eq_true, List.mem_map, List.mem_filter]
  constructor
  · rintro ⟨v, ⟨a, ⟨ha, hk⟩, hv⟩, hm⟩
    exact ⟨a, ha, by simpa using hk, by rwa [hv]⟩
  · rintro ⟨a, ha, hk, hm⟩
    exact ⟨a.value, ⟨a, ⟨ha, by simpa using hk⟩, rfl⟩, hm⟩

/-- C10 witness: an event carrying two attributes with key k matches an
equality condition satisfied only by the second value. -/
theorem C10_witness :
    condition.matchesEvent ⟨"tx", "k", fun s => s == "v2"⟩
      ⟨"tx", [⟨"k", "v1"⟩, ⟨"k", "v2"⟩]⟩ = true :=
  ((C10_multivalue ⟨"tx", "k", fun s => s == "v2"⟩ ⟨"tx", [⟨"k", "v1"⟩, ⟨"k", "v2"⟩]⟩
      (by decide) rfl).2).mpr ⟨⟨"k", "v2"⟩, by simp, rfl, by decide⟩
